import Mathlib

/-!
Verification development for the TextTango dual-letter-illusion generator
(`app/app.py`, function `dual_text`).

The geometry kernel (CadQuery / OpenCascade) is an external collaborator:
solids are opaque to the program, which only observes their axis-aligned
bounding boxes, translates them, and collects them into an assembly.  We
therefore embed each solid by its bounding box, and each per-character
iteration of `dual_text` by the outcome the kernel reports for it: either
an exception while building the two letters / intersecting them (the bare
`except` path), or a bounding box for the intersection, together with a
flag saying whether the later support-peg construction for that index
raises.  All numeric quantities are rationals (the Python floats are used
exactly: sliders supply decimal steps, and the arithmetic in `dual_text`
is plain +, *, /, // and comparisons).
-/

/-- Axis-aligned bounding box, as reported by the kernel's `BoundingBox()`:
fields `xmin, xmax, ymin, ymax, zmin, zmax`. -/
structure BBox where
  xmin : ℚ
  xmax : ℚ
  ymin : ℚ
  ymax : ℚ
  zmin : ℚ
  zmax : ℚ
deriving DecidableEq

/-- `b_box.xlen` of CadQuery: extent along x. -/
def BBox.xlen (b : BBox) : ℚ := b.xmax - b.xmin

/-- `b_box.ylen` of CadQuery: extent along y (the stacking axis). -/
def BBox.ylen (b : BBox) : ℚ := b.ymax - b.ymin

/-- Translating a solid by `[0, t, 0]` shifts its bounding box along y. -/
def BBox.translateY (b : BBox) (t : ℚ) : BBox :=
  { b with ymin := b.ymin + t, ymax := b.ymax + t }

/-- Bounding box of the union of two solids (used for the assembly's
compound bounding box). -/
def BBox.union (a b : BBox) : BBox :=
  ⟨min a.xmin b.xmin, max a.xmax b.xmax, min a.ymin b.ymin,
   max a.ymax b.ymax, min a.zmin b.zmin, max a.zmax b.zmax⟩

/-- Outcome the kernel reports for the character pair at one loop index of
`dual_text`:
* `fail`  — an exception is raised while building either glyph via
  `letter`, intersecting them, or querying the bounding box (the code's
  bare `except` catches it before any geometry is added);
* `ok bb pegRaises` — the intersection `a & b` is built and its bounding
  box is `bb`; `pegRaises` records whether constructing the support-peg
  cylinder at this index would raise (only relevant when the mask actually
  requests a peg here). -/
inductive PairOutcome where
  | fail : PairOutcome
  | ok (bb : BBox) (pegRaises : Bool) : PairOutcome
deriving DecidableEq

/-- The parameters of `dual_text` that the geometry depends on.  `fontsize`
is the module-level global read by `dual_text`; the mask is a string,
embedded as a list of characters. -/
structure Params where
  fontsize : ℚ
  space_per : ℚ
  b_h : ℚ
  b_pad : ℚ
  b_fil_per : ℚ
  extrab_h : ℚ
  extrab_rad : ℚ
  extrab_mask : List Char
deriving DecidableEq

/-- `space = fontsize*space_per` — the inter-character spacing. -/
def Params.space (p : Params) : ℚ := p.fontsize * p.space_per

/-- A solid added to the assembly `res` during the loop: a placed character
pair (with its translated bounding box) or a support peg
(`circle(extrab_rad//2).extrude(extrab_h).translate([0,ty,0])`,
recorded by its translation `ty`, radius and height). -/
inductive Item where
  | pair (ind : Nat) (bb : BBox) : Item
  | peg (ind : Nat) (ty : ℚ) (rad : ℚ) (h : ℚ) : Item
deriving DecidableEq

/-- The loop index at which an item was added. -/
def Item.ind : Item → Nat
  | .pair i _ => i
  | .peg i _ _ _ => i

/-- Bounding box of an item.  A peg is a cylinder of radius `rad` about the
z-axis extruded from `z = 0` to `z = h`, then translated by `[0, ty, 0]`. -/
def Item.bbox : Item → BBox
  | .pair _ bb => bb
  | .peg _ ty rad h => ⟨-rad, rad, ty - rad, ty + rad, 0, h⟩

/-- The Python test `extrab_mask and len(extrab_mask) > ind and
extrab_mask[ind] != '_'` deciding whether a peg is requested at `ind`. -/
def maskActive (mask : List Char) (ind : Nat) : Bool :=
  !mask.isEmpty && decide (ind < mask.length) && (mask.getD ind '_' != '_')

/-- The peg cylinder's radius: the code passes `extrab_rad//2` (Python
floor division) to `circle`. -/
def pegRadius (extrab_rad : ℚ) : ℚ := ((extrab_rad / 2).floor : ℤ)

/-- Loop state of `dual_text`: the solids added to the assembly so far and
the running `last_ymax` high-water mark. -/
structure StackState where
  items : List Item
  last_ymax : ℚ
deriving DecidableEq

/-- `translate_vect[1]`: `-b_box.ymin`, plus `last_ymax + space` when
`ind` is non-zero. -/
def tyFor (p : Params) (ind : Nat) (last : ℚ) (bb : BBox) : ℚ :=
  -bb.ymin + (if ind ≠ 0 then last + p.space else 0)

/-- One iteration of the `for ind, ab in enumerate(zip(text1, text2))`
loop of `dual_text`, given the kernel outcome for this index.
* On an exception before any geometry is added, the `except` branch runs:
  `last_ymax += space*1.5`.
* On success the intersection is translated, `last_ymax` is set to the
  placed solid's `ymax`, the pair is added, and then, if the mask requests
  a peg here, the peg is built and added; if the peg construction raises,
  the pair is already in the assembly and `last_ymax` (already updated)
  gets the `except` branch's further `space*1.5`. -/
def stackStep (p : Params) (ind : Nat) (st : StackState) : PairOutcome → StackState
  | .fail => { st with last_ymax := st.last_ymax + p.space * (3 / 2) }
  | .ok bb pegRaises =>
    let ty := tyFor p ind st.last_ymax bb
    let placed := bb.translateY ty
    if maskActive p.extrab_mask ind then
      if pegRaises then
        { items := st.items ++ [Item.pair ind placed],
          last_ymax := placed.ymax + p.space * (3 / 2) }
      else
        { items := st.items ++ [Item.pair ind placed,
            Item.peg ind ty (pegRadius p.extrab_rad) p.extrab_h],
          last_ymax := placed.ymax }
    else
      { items := st.items ++ [Item.pair ind placed], last_ymax := placed.ymax }

/-- The loop, from a given index and state. -/
def stackGo (p : Params) : Nat → StackState → List PairOutcome → StackState
  | _, st, [] => st
  | ind, st, o :: rest => stackGo p (ind + 1) (stackStep p ind st o) rest

/-- The whole per-character loop of `dual_text`: start with an empty
assembly and `last_ymax = 0`. -/
def stackLoop (p : Params) (outs : List PairOutcome) : StackState :=
  stackGo p 0 { items := [], last_ymax := 0 } outs

/-- `res.toCompound().BoundingBox()`: the bounding box of the assembly.
Models the CadQuery kernel's bounding-box query, which needs at least one
solid: for an empty assembly there are no extents to report and the query
fails (this is the only partiality of the kernel interface the program
relies on here). -/
def assemblyBBox : List Item → Option BBox
  | [] => none
  | it :: rest => some (rest.foldl (fun acc x => acc.union x.bbox) it.bbox)

/-- The base plate's bounding box:
`box(xlen+b_pad*2, ylen+b_pad*2, b_h, centered=(1,0,0))` (centered in x,
growing from 0 in y and z) then `.translate([0, -b_pad, -b_h])`. -/
def plateBox (bb : BBox) (b_pad b_h : ℚ) : BBox :=
  ⟨-(bb.xlen + 2 * b_pad) / 2, (bb.xlen + 2 * b_pad) / 2,
   -b_pad, bb.ylen + b_pad, -b_h, 0⟩

/-- The fillet radius the code requests: `b_box.xlen/2*b_fil_per`. -/
def filletRadius (bb : BBox) (b_fil_per : ℚ) : ℚ := bb.xlen / 2 * b_fil_per

/-- Models the kernel's fillet on the plate's vertical edges: it fails on a
degenerate radius — non-positive, or so large that the corner fillets of
the rectangular plate collide (radius beyond half the shorter horizontal
dimension). -/
def filletOk (plate : BBox) (r : ℚ) : Bool :=
  decide (0 < r) && decide (2 * r ≤ min plate.xlen plate.ylen)

/-- The result of a successful `dual_text` run: the placed pair/peg solids
(in assembly order, before the final recentering translation), the plate's
bounding box and fillet radius, the final translation vector
`[0, -b_box.ylen/2, 0]` applied to the whole compound, and the two files
written by the export calls. -/
structure Output where
  items : List Item
  plate : BBox
  filletR : ℚ
  finalShift : ℚ × ℚ × ℚ
  exports : List String
deriving DecidableEq

/-- The `dual_text` pipeline after the per-character loop: compute the
assembly bounding box, build the padded plate, fillet its vertical edges
with radius `xlen/2 * b_fil_per`, convert to a compound, translate it by
`[0, -b_box.ylen/2, 0]`, and export a fixed-name preview plus the
user-named file.  Kernel failures (bounding box of an empty assembly,
degenerate fillet) are not caught by any `try` in `dual_text` and
propagate as errors. -/
def dual_text (p : Params) (outs : List PairOutcome)
    (export_name save : String) : Except String Output :=
  let st := stackLoop p outs
  match assemblyBBox st.items with
  | none => .error "BoundingBox of empty assembly"
  | some bb =>
    let plate := plateBox bb p.b_pad p.b_h
    let r := filletRadius bb p.b_fil_per
    if filletOk plate r then
      .ok { items := st.items, plate := plate, filletR := r,
            finalShift := (0, -bb.ylen / 2, 0),
            exports := ["file_display.stl", export_name ++ "." ++ save] }
    else
      .error "degenerate fillet"

/-- `dual_text` on the two texts themselves: the loop runs over
`zip(text1, text2)`, and the kernel outcome for a pair of characters is
given by the (opaque, font-dependent) function `inter`. -/
def dualTextRun (inter : Char → Char → PairOutcome) (p : Params)
    (t1 t2 : List Char) (export_name save : String) : Except String Output :=
  dual_text p ((t1.zip t2).map fun ab => inter ab.1 ab.2) export_name save

/-- The placed bounding box of the character pair added at loop index `i`,
if any (first matching item in assembly order). -/
def pairPlacement (items : List Item) (i : Nat) : Option BBox :=
  items.findSome? fun it =>
    match it with
    | .pair j bb => if j = i then some bb else none
    | .peg _ _ _ _ => none

/-- The support peg added at loop index `i`, if any. -/
def pegAt (items : List Item) (i : Nat) : Option Item :=
  items.find? fun it =>
    match it with
    | .pair _ _ => false
    | .peg j _ _ _ => j == i

/-! ### Structural lemmas about the loop -/

theorem stackGo_append (p : Params) (xs ys : List PairOutcome) :
    ∀ (ind : Nat) (st : StackState),
      stackGo p ind st (xs ++ ys) =
        stackGo p (ind + xs.length) (stackGo p ind st xs) ys := by
  induction xs with
  | nil => intro ind st; simp [stackGo]
  | cons x xs ih =>
    intro ind st
    simp only [List.cons_append, stackGo, List.length_cons, List.append_eq]
    rw [ih]
    have hn : ind + 1 + xs.length = ind + (xs.length + 1) := by omega
    rw [hn]

/-- What the loop can add to the assembly from index `ind` on, processing
`outs`: a pair item comes from an `ok` outcome at its own index, a peg item
from an `ok` outcome whose peg construction does not raise, at a
mask-active index, with the code's radius and height. -/
def ItemFrom (p : Params) (ind : Nat) (outs : List PairOutcome) : Item → Prop
  | .pair j _ => ind ≤ j ∧ j < ind + outs.length ∧
      ∃ bb pr, outs[j - ind]? = some (PairOutcome.ok bb pr)
  | .peg j _ rad h => ind ≤ j ∧ j < ind + outs.length ∧
      maskActive p.extrab_mask j = true ∧ rad = pegRadius p.extrab_rad ∧
      h = p.extrab_h ∧ ∃ bb, outs[j - ind]? = some (PairOutcome.ok bb false)

theorem ItemFrom_head (p : Params) (ind : Nat) (o : PairOutcome)
    (rest : List PairOutcome) (it : Item) (h : ItemFrom p ind [o] it) :
    ItemFrom p ind (o :: rest) it := by
  cases it with
  | pair j bb' =>
    obtain ⟨h1, h2, bb, pr, h3⟩ := h
    have hj : j = ind := by simp at h2; omega
    subst hj
    simp only [Nat.sub_self, List.getElem?_cons_zero, Option.some.injEq] at h3
    exact ⟨le_refl _, by simp, bb, pr, by simp [h3]⟩
  | peg j ty rad hh =>
    obtain ⟨h1, h2, h3, h4, h5, bb, h6⟩ := h
    have hj : j = ind := by simp at h2; omega
    subst hj
    simp only [Nat.sub_self, List.getElem?_cons_zero, Option.some.injEq] at h6
    exact ⟨le_refl _, by simp, h3, h4, h5, bb, by simp [h6]⟩

theorem ItemFrom_tail (p : Params) (ind : Nat) (o : PairOutcome)
    (rest : List PairOutcome) (it : Item) (h : ItemFrom p (ind + 1) rest it) :
    ItemFrom p ind (o :: rest) it := by
  cases it with
  | pair j bb' =>
    obtain ⟨h1, h2, bb, pr, h3⟩ := h
    refine ⟨by omega, by simp; omega, bb, pr, ?_⟩
    have hj : j - ind = (j - (ind + 1)) + 1 := by omega
    rw [hj, List.getElem?_cons_succ]
    exact h3
  | peg j ty rad hh =>
    obtain ⟨h1, h2, h3, h4, h5, bb, h6⟩ := h
    refine ⟨by omega, by simp; omega, h3, h4, h5, bb, ?_⟩
    have hj : j - ind = (j - (ind + 1)) + 1 := by omega
    rw [hj, List.getElem?_cons_succ]
    exact h6

theorem stackStep_items (p : Params) (ind : Nat) (st : StackState)
    (o : PairOutcome) :
    ∃ δ, (stackStep p ind st o).items = st.items ++ δ ∧
      ∀ it ∈ δ, ItemFrom p ind [o] it := by
  cases o with
  | fail => exact ⟨[], by simp [stackStep], by simp⟩
  | ok bb pr =>
    by_cases hm : maskActive p.extrab_mask ind
    · cases pr with
      | false =>
        refine ⟨[Item.pair ind (bb.translateY (tyFor p ind st.last_ymax bb)),
          Item.peg ind (tyFor p ind st.last_ymax bb) (pegRadius p.extrab_rad)
            p.extrab_h], by simp [stackStep, hm], ?_⟩
        intro it hit
        simp only [List.mem_cons, List.not_mem_nil, or_false] at hit
        rcases hit with rfl | rfl
        · exact ⟨le_refl _, by simp, bb, false, by simp⟩
        · exact ⟨le_refl _, by simp, hm, rfl, rfl, bb, by simp⟩
      | true =>
        refine ⟨[Item.pair ind (bb.translateY (tyFor p ind st.last_ymax bb))],
          by simp [stackStep, hm], ?_⟩
        intro it hit
        simp only [List.mem_cons, List.not_mem_nil, or_false] at hit
        subst hit
        exact ⟨le_refl _, by simp, bb, true, by simp⟩
    · refine ⟨[Item.pair ind (bb.translateY (tyFor p ind st.last_ymax bb))],
        by simp [stackStep, hm], ?_⟩
      intro it hit
      simp only [List.mem_cons, List.not_mem_nil, or_false] at hit
      subst hit
      exact ⟨le_refl _, by simp, bb, pr, by simp⟩

theorem stackGo_items_spec (p : Params) (outs : List PairOutcome) :
    ∀ (ind : Nat) (st : StackState), ∃ Δ,
      (stackGo p ind st outs).items = st.items ++ Δ ∧
      ∀ it ∈ Δ, ItemFrom p ind outs it := by
  induction outs with
  | nil => intro ind st; exact ⟨[], by simp [stackGo], by simp⟩
  | cons o rest ih =>
    intro ind st
    obtain ⟨δ, hδ, hδs⟩ := stackStep_items p ind st o
    obtain ⟨Δ, hΔ, hΔs⟩ := ih (ind + 1) (stackStep p ind st o)
    refine ⟨δ ++ Δ, ?_, ?_⟩
    · simp only [stackGo]
      rw [hΔ, hδ, List.append_assoc]
    · intro it hit
      rcases List.mem_append.1 hit with h | h
      · exact ItemFrom_head p ind o rest it (hδs it h)
      · exact ItemFrom_tail p ind o rest it (hΔs it h)

theorem stackLoop_items_spec (p : Params) (outs : List PairOutcome) :
    ∀ it ∈ (stackLoop p outs).items, ItemFrom p 0 outs it := by
  obtain ⟨Δ, hΔ, hs⟩ :=
    stackGo_items_spec p outs 0 { items := [], last_ymax := 0 }
  intro it hit
  rw [stackLoop] at hit
  rw [hΔ] at hit
  simp only [List.nil_append] at hit
  exact hs it hit

theorem stackLoop_take_succ (p : Params) (outs : List PairOutcome) (i : Nat)
    (h : i < outs.length) :
    stackLoop p (outs.take (i + 1)) =
      stackStep p i (stackLoop p (outs.take i)) outs[i] := by
  unfold stackLoop
  rw [List.take_succ, List.getElem?_eq_getElem h, Option.toList_some,
    stackGo_append]
  simp [stackGo, List.length_take, Nat.min_eq_left (Nat.le_of_lt h)]

theorem stackLoop_split (p : Params) (outs : List PairOutcome) (i : Nat)
    (h : i < outs.length) :
    stackLoop p outs =
      stackGo p (i + 1) (stackLoop p (outs.take (i + 1))) (outs.drop (i + 1)) := by
  conv_lhs => rw [← List.take_append_drop (i + 1) outs]
  rw [stackLoop, stackGo_append]
  have hl : (outs.take (i + 1)).length = i + 1 := by
    rw [List.length_take]; omega
  rw [hl, Nat.zero_add]
  rfl

theorem ItemFrom_ind_bounds (p : Params) (ind : Nat) (outs : List PairOutcome)
    (it : Item) (h : ItemFrom p ind outs it) :
    ind ≤ it.ind ∧ it.ind < ind + outs.length := by
  cases it with
  | pair j bb => exact ⟨h.1, h.2.1⟩
  | peg j ty r hh => exact ⟨h.1, h.2.1⟩

theorem pairPlacement_eq_none (l : List Item) (i : Nat)
    (h : ∀ it ∈ l, it.ind ≠ i) : pairPlacement l i = none := by
  rw [pairPlacement, List.findSome?_eq_none_iff]
  intro it hit
  cases it with
  | pair j bb =>
    have hj := h _ hit
    simp only [Item.ind] at hj
    simp [hj]
  | peg j ty r hh => rfl

theorem pegAt_eq_none (l : List Item) (i : Nat)
    (h : ∀ it ∈ l, it.ind ≠ i) : pegAt l i = none := by
  rw [pegAt]
  rw [List.find?_eq_none]
  intro it hit
  cases it with
  | pair j bb => simp
  | peg j ty r hh =>
    have hj := h _ hit
    simp only [Item.ind] at hj
    simp [hj]

theorem stackLoop_take_ind_lt (p : Params) (outs : List PairOutcome) (i : Nat) :
    ∀ it ∈ (stackLoop p (outs.take i)).items, it.ind < i := by
  intro it hit
  have hb := ItemFrom_ind_bounds p 0 (outs.take i) it
    (stackLoop_items_spec p (outs.take i) it hit)
  have hl : (outs.take i).length ≤ i := by
    rw [List.length_take]; omega
  omega

theorem pairPlacement_stackLoop (p : Params) (outs : List PairOutcome) (i : Nat)
    (bb : BBox) (pr : Bool) (h : outs[i]? = some (PairOutcome.ok bb pr)) :
    pairPlacement (stackLoop p outs).items i =
      some (bb.translateY (tyFor p i (stackLoop p (outs.take i)).last_ymax bb)) := by
  obtain ⟨hi, hv⟩ := List.getElem?_eq_some_iff.1 h
  obtain ⟨Δ, hΔ, hΔs⟩ := stackGo_items_spec p (outs.drop (i + 1)) (i + 1)
    (stackLoop p (outs.take (i + 1)))
  have hnone : pairPlacement (stackLoop p (outs.take i)).items i = none :=
    pairPlacement_eq_none _ _ (fun it hit =>
      Nat.ne_of_lt (stackLoop_take_ind_lt p outs i it hit))
  have hΔnone : pairPlacement Δ i = none :=
    pairPlacement_eq_none _ _ (fun it hit => by
      have := ItemFrom_ind_bounds p (i + 1) (outs.drop (i + 1)) it (hΔs it hit)
      omega)
  rw [stackLoop_split p outs i hi, hΔ, stackLoop_take_succ p outs i hi, hv]
  rw [pairPlacement] at hnone hΔnone ⊢
  by_cases hm : maskActive p.extrab_mask i
  · cases pr with
    | false =>
      simp only [stackStep, hm, if_true, Bool.false_eq_true, if_false,
        List.append_assoc, List.cons_append, List.nil_append]
      rw [List.findSome?_append, hnone, Option.none_or]
      simp
    | true =>
      simp only [stackStep, hm, if_true, List.append_assoc, List.cons_append,
        List.nil_append]
      rw [List.findSome?_append, hnone, Option.none_or]
      simp
  · simp only [stackStep, hm, if_true, if_false, Bool.false_eq_true,
      Bool.not_eq_true, List.append_assoc, List.cons_append, List.nil_append]
    rw [List.findSome?_append, hnone, Option.none_or]
    simp

theorem pegAt_stackLoop_some (p : Params) (outs : List PairOutcome) (i : Nat)
    (bb : BBox) (h : outs[i]? = some (PairOutcome.ok bb false))
    (hm : maskActive p.extrab_mask i = true) :
    pegAt (stackLoop p outs).items i =
      some (Item.peg i (tyFor p i (stackLoop p (outs.take i)).last_ymax bb)
        (pegRadius p.extrab_rad) p.extrab_h) := by
  obtain ⟨hi, hv⟩ := List.getElem?_eq_some_iff.1 h
  obtain ⟨Δ, hΔ, hΔs⟩ := stackGo_items_spec p (outs.drop (i + 1)) (i + 1)
    (stackLoop p (outs.take (i + 1)))
  have hnone : pegAt (stackLoop p (outs.take i)).items i = none :=
    pegAt_eq_none _ _ (fun it hit =>
      Nat.ne_of_lt (stackLoop_take_ind_lt p outs i it hit))
  rw [stackLoop_split p outs i hi, hΔ, stackLoop_take_succ p outs i hi, hv]
  rw [pegAt] at hnone ⊢
  simp only [stackStep, hm, if_true, Bool.false_eq_true, if_false,
    List.append_assoc, List.cons_append, List.nil_append]
  rw [List.find?_append, hnone, Option.none_or]
  simp

theorem pairPlacement_stackLoop_none (p : Params) (outs : List PairOutcome)
    (i : Nat) (h : ∀ bb pr, outs[i]? ≠ some (PairOutcome.ok bb pr)) :
    pairPlacement (stackLoop p outs).items i = none :=
  pairPlacement_eq_none _ _ (fun it hit => by
    have hs := stackLoop_items_spec p outs it hit
    cases it with
    | pair j bb =>
      obtain ⟨-, -, bb', pr', hj⟩ := hs
      intro hji
      simp only [Item.ind] at hji
      subst hji
      exact h bb' pr' (by simpa using hj)
    | peg j ty r hh =>
      obtain ⟨-, -, -, -, -, bb', hj⟩ := hs
      intro hji
      simp only [Item.ind] at hji
      subst hji
      exact h bb' false (by simpa using hj))

theorem pegAt_eq_none_of (l : List Item) (i : Nat)
    (h : ∀ ty r hh, Item.peg i ty r hh ∉ l) : pegAt l i = none := by
  rw [pegAt, List.find?_eq_none]
  intro it hit
  cases it with
  | pair j bb => simp
  | peg j ty r hh =>
    simp only [beq_iff_eq]
    intro hji
    subst hji
    exact h ty r hh hit

theorem pegAt_stackLoop_none (p : Params) (outs : List PairOutcome) (i : Nat)
    (h : ∀ bb, outs[i]? = some (PairOutcome.ok bb false) →
      maskActive p.extrab_mask i = false) :
    pegAt (stackLoop p outs).items i = none :=
  pegAt_eq_none_of _ _ (fun ty r hh hmem => by
    obtain ⟨-, -, hma, -, -, bb', hj⟩ := stackLoop_items_spec p outs _ hmem
    have hfalse := h bb' (by simpa using hj)
    rw [hfalse] at hma
    exact Bool.false_ne_true hma)

/-! ### High-water-mark lemmas -/

theorem stackStep_fail_mark (p : Params) (ind : Nat) (st : StackState) :
    (stackStep p ind st PairOutcome.fail).last_ymax =
      st.last_ymax + p.space * (3 / 2) := rfl

theorem stackStep_ok_mark (p : Params) (ind : Nat) (st : StackState)
    (bb : BBox) (pr : Bool) :
    (stackStep p ind st (PairOutcome.ok bb pr)).last_ymax =
      bb.ymax + tyFor p ind st.last_ymax bb +
        (if maskActive p.extrab_mask ind = true ∧ pr = true
          then p.space * (3 / 2) else 0) := by
  by_cases hm : maskActive p.extrab_mask ind
  · cases pr with
    | false => simp [stackStep, hm, BBox.translateY]
    | true => simp [stackStep, hm, BBox.translateY]
  · simp [stackStep, hm, BBox.translateY]

theorem stackLoop_take_mark_le (p : Params) (outs : List PairOutcome) (i : Nat)
    (hsp : 0 ≤ p.space)
    (hbb : ∀ bb pr, PairOutcome.ok bb pr ∈ outs → bb.ymin ≤ bb.ymax) :
    (stackLoop p (outs.take i)).last_ymax ≤
      (stackLoop p (outs.take (i + 1))).last_ymax := by
  by_cases hi : i < outs.length
  · rw [stackLoop_take_succ p outs i hi]
    cases hv : outs[i] with
    | fail =>
      rw [stackStep_fail_mark]
      nlinarith
    | ok bb pr =>
      rw [stackStep_ok_mark]
      have hy : bb.ymin ≤ bb.ymax :=
        hbb bb pr (by rw [← hv]; exact List.getElem_mem hi)
      rw [tyFor]
      by_cases h0 : i ≠ 0
      · rw [if_pos h0]
        have hex : (0:ℚ) ≤ (if maskActive p.extrab_mask i = true ∧ pr = true
            then p.space * (3 / 2) else 0) := by
          split
          · nlinarith
          · exact le_refl 0
        nlinarith
      · rw [if_neg h0]
        have h00 : i = 0 := by omega
        subst h00
        have hz : (stackLoop p (outs.take 0)).last_ymax = 0 := rfl
        rw [hz]
        have hex : (0:ℚ) ≤ (if maskActive p.extrab_mask 0 = true ∧ pr = true
            then p.space * (3 / 2) else 0) := by
          split
          · nlinarith
          · exact le_refl 0
        nlinarith
  · have hle : outs.length ≤ i := by omega
    rw [List.take_of_length_le hle, List.take_of_length_le (by omega)]

/-! ### Claims -/

/-- Claim C1: for every sequence of character-pair outcomes processed by
`dual_text`, a valid pair at index `i > 0` is translated so that its
minimum extent along the stacking (y) axis equals the current high-water
mark plus the inter-character spacing; a valid pair at index 0 is placed
with minimum extent 0 (mark + 0); and after the placement the high-water
mark is updated to the placed solid's maximum y extent.  Stated on the
normal path, where the peg construction at `i` does not itself raise (the
exceptional peg path is the subject of claim C10). -/
theorem claim_C1 (p : Params) (outs : List PairOutcome) (i : Nat) (bb : BBox)
    (pr : Bool) (h : outs[i]? = some (PairOutcome.ok bb pr))
    (hpeg : maskActive p.extrab_mask i = true → pr = false) :
    ∃ pb, pairPlacement (stackLoop p outs).items i = some pb ∧
      pb.ymin = (stackLoop p (outs.take i)).last_ymax +
        (if i = 0 then 0 else p.space) ∧
      (stackLoop p (outs.take (i + 1))).last_ymax = pb.ymax := by
  obtain ⟨hi, hv⟩ := List.getElem?_eq_some_iff.1 h
  refine ⟨_, pairPlacement_stackLoop p outs i bb pr h, ?_, ?_⟩
  · simp only [BBox.translateY, tyFor]
    by_cases h0 : i = 0
    · subst h0
      have hz : (stackLoop p (outs.take 0)).last_ymax = 0 := rfl
      rw [hz]
      simp
    · rw [if_pos h0, if_neg h0]
      ring
  · rw [stackLoop_take_succ p outs i hi, hv, stackStep_ok_mark]
    have hcond : ¬(maskActive p.extrab_mask i = true ∧ pr = true) := by
      rintro ⟨hm, hp⟩
      have hf := hpeg hm
      rw [hf] at hp
      exact Bool.false_ne_true hp
    rw [if_neg hcond, add_zero]
    simp [BBox.translateY, add_comm]

/-- Witness for C1 at a concrete run: two valid pairs, empty mask,
fontsize 20 and spacing fraction 3/10 (so `space = 6`); the second pair's
placed `ymin` is the first pair's `ymax` plus the spacing, and the mark
after it equals its placed `ymax`. -/
theorem claim_C1_witness :
    ∃ pb, pairPlacement (stackLoop
        ⟨20, 3 / 10, 2, 2, 8 / 10, 1, 2, []⟩
        [PairOutcome.ok ⟨-5, 5, 0, 10, 0, 40⟩ false,
         PairOutcome.ok ⟨-5, 5, -2, 8, 0, 40⟩ false]).items 1 = some pb ∧
      pb.ymin = (stackLoop ⟨20, 3 / 10, 2, 2, 8 / 10, 1, 2, []⟩
          ([PairOutcome.ok ⟨-5, 5, 0, 10, 0, 40⟩ false,
            PairOutcome.ok ⟨-5, 5, -2, 8, 0, 40⟩ false].take 1)).last_ymax +
        (if 1 = 0 then 0 else Params.space ⟨20, 3 / 10, 2, 2, 8 / 10, 1, 2, []⟩) ∧
      (stackLoop ⟨20, 3 / 10, 2, 2, 8 / 10, 1, 2, []⟩
          ([PairOutcome.ok ⟨-5, 5, 0, 10, 0, 40⟩ false,
            PairOutcome.ok ⟨-5, 5, -2, 8, 0, 40⟩ false].take 2)).last_ymax = pb.ymax :=
  claim_C1 ⟨20, 3 / 10, 2, 2, 8 / 10, 1, 2, []⟩
    [PairOutcome.ok ⟨-5, 5, 0, 10, 0, 40⟩ false,
     PairOutcome.ok ⟨-5, 5, -2, 8, 0, 40⟩ false] 1 ⟨-5, 5, -2, 8, 0, 40⟩ false
    (by decide) (fun _ => rfl)

/-- Counterexample to claim C2 as stated: the high-water mark does NOT
strictly increase by at least the base spacing for *every* processed
element.  With fontsize 20 and spacing fraction 3/10 the base spacing is
6, yet a valid first pair whose intersection has y-extent 1 advances the
mark from 0 to only 1 (a valid element at index 0 is placed at mark + 0,
so its increment is just its own y-extent). -/
theorem claim_C2_counterexample :
    (0:ℚ) ≤ Params.space ⟨20, 3 / 10, 2, 2, 8 / 10, 1, 2, []⟩ ∧
    (stackLoop ⟨20, 3 / 10, 2, 2, 8 / 10, 1, 2, []⟩
        ([PairOutcome.ok ⟨-5, 5, 0, 1, 0, 40⟩ false].take 0)).last_ymax = 0 ∧
    (stackLoop ⟨20, 3 / 10, 2, 2, 8 / 10, 1, 2, []⟩
        [PairOutcome.ok ⟨-5, 5, 0, 1, 0, 40⟩ false]).last_ymax <
      0 + Params.space ⟨20, 3 / 10, 2, 2, 8 / 10, 1, 2, []⟩ := by
  refine ⟨by norm_num [Params.space], rfl, ?_⟩
  norm_num [Params.space, stackLoop, stackGo, stackStep, maskActive,
    BBox.translateY, tyFor]

/-- Claim C2 (amended): with non-negative spacing and well-formed kernel
bounding boxes, the high-water mark is monotonically non-decreasing across
the whole loop; it increases by at least the base inter-character spacing
for every processed element at index `i > 0` and for every skipped
element — but a *valid* element at index 0 advances the mark only by its
own y-extent, which can be smaller than the spacing. -/
theorem claim_C2_amended (p : Params) (outs : List PairOutcome) (i : Nat)
    (hsp : 0 ≤ p.space)
    (hbb : ∀ bb pr, PairOutcome.ok bb pr ∈ outs → bb.ymin ≤ bb.ymax) :
    (stackLoop p (outs.take i)).last_ymax ≤
      (stackLoop p (outs.take (i + 1))).last_ymax ∧
    (i < outs.length → (0 < i ∨ outs[i]? = some PairOutcome.fail) →
      (stackLoop p (outs.take i)).last_ymax + p.space ≤
        (stackLoop p (outs.take (i + 1))).last_ymax) := by
  refine ⟨stackLoop_take_mark_le p outs i hsp hbb, ?_⟩
  intro hi hcase
  rw [stackLoop_take_succ p outs i hi]
  cases hv : outs[i] with
  | fail =>
    rw [stackStep_fail_mark]
    nlinarith
  | ok bb pr =>
    have h0 : 0 < i := by
      rcases hcase with hc | hc
      · exact hc
      · rw [List.getElem?_eq_getElem hi, hv] at hc
        simp at hc
    have hy : bb.ymin ≤ bb.ymax :=
      hbb bb pr (by rw [← hv]; exact List.getElem_mem hi)
    rw [stackStep_ok_mark, tyFor, if_pos (by omega : i ≠ 0)]
    have hex : (0:ℚ) ≤ (if maskActive p.extrab_mask i = true ∧ pr = true
        then p.space * (3 / 2) else 0) := by
      split
      · nlinarith
      · exact le_refl 0
    nlinarith

/-- Witness for the amended C2 at a concrete run: a valid pair at index 1
after a skip at index 0, with `space = 6`: the mark both is monotone and
gains at least 6 at index 1. -/
theorem claim_C2_amended_witness :
    (stackLoop ⟨20, 3 / 10, 2, 2, 8 / 10, 1, 2, []⟩
        ([PairOutcome.fail, PairOutcome.ok ⟨-5, 5, 0, 10, 0, 40⟩ false].take 1)).last_ymax ≤
      (stackLoop ⟨20, 3 / 10, 2, 2, 8 / 10, 1, 2, []⟩
        ([PairOutcome.fail, PairOutcome.ok ⟨-5, 5, 0, 10, 0, 40⟩ false].take 2)).last_ymax ∧
    (1 < ([PairOutcome.fail, PairOutcome.ok ⟨-5, 5, 0, 10, 0, 40⟩ false] : List PairOutcome).length →
      (0 < 1 ∨ [PairOutcome.fail, PairOutcome.ok ⟨-5, 5, 0, 10, 0, 40⟩ false][1]? = some PairOutcome.fail) →
      (stackLoop ⟨20, 3 / 10, 2, 2, 8 / 10, 1, 2, []⟩
          ([PairOutcome.fail, PairOutcome.ok ⟨-5, 5, 0, 10, 0, 40⟩ false].take 1)).last_ymax +
        Params.space ⟨20, 3 / 10, 2, 2, 8 / 10, 1, 2, []⟩ ≤
      (stackLoop ⟨20, 3 / 10, 2, 2, 8 / 10, 1, 2, []⟩
          ([PairOutcome.fail, PairOutcome.ok ⟨-5, 5, 0, 10, 0, 40⟩ false].take 2)).last_ymax) :=
  claim_C2_amended ⟨20, 3 / 10, 2, 2, 8 / 10, 1, 2, []⟩
    [PairOutcome.fail, PairOutcome.ok ⟨-5, 5, 0, 10, 0, 40⟩ false] 1
    (by norm_num [Params.space])
    (by
      intro bb pr hmem
      simp only [List.mem_cons, List.not_mem_nil, or_false] at hmem
      rcases hmem with h | h
      · cases h
      · cases h
        norm_num)

/-- Claim C3: when the kernel raises for the pair at index `k` (and the
neighbouring pairs are valid, the one at `k-1` on the normal peg path),
`dual_text` catches the exception, adds no geometry for index `k`,
advances the high-water mark by 1.5x the spacing, and keeps processing:
every valid pair still gets placed, and the placed solids at `k-1` and
`k+1` end up separated along the stacking axis by a 1.5x plus one normal
spacing gap. -/
theorem claim_C3 (p : Params) (outs : List PairOutcome) (k : Nat)
    (bb1 bb2 : BBox) (pr2 : Bool) (hk : 0 < k)
    (h1 : outs[k - 1]? = some (PairOutcome.ok bb1 false))
    (hf : outs[k]? = some PairOutcome.fail)
    (h2 : outs[k + 1]? = some (PairOutcome.ok bb2 pr2)) :
    pairPlacement (stackLoop p outs).items k = none ∧
    pegAt (stackLoop p outs).items k = none ∧
    (∀ j bbj prj, outs[j]? = some (PairOutcome.ok bbj prj) →
      (pairPlacement (stackLoop p outs).items j).isSome = true) ∧
    ∃ pb1 pb2,
      pairPlacement (stackLoop p outs).items (k - 1) = some pb1 ∧
      pairPlacement (stackLoop p outs).items (k + 1) = some pb2 ∧
      pb2.ymin - pb1.ymax = p.space * (3 / 2) + p.space := by
  obtain ⟨hik, hvk⟩ := List.getElem?_eq_some_iff.1 hf
  obtain ⟨hi1, hv1⟩ := List.getElem?_eq_some_iff.1 h1
  refine ⟨?_, ?_, ?_, _, _, pairPlacement_stackLoop p outs (k - 1) bb1 false h1,
    pairPlacement_stackLoop p outs (k + 1) bb2 pr2 h2, ?_⟩
  · exact pairPlacement_stackLoop_none p outs k (fun bb pr hc => by
      rw [hf] at hc
      simp at hc)
  · exact pegAt_stackLoop_none p outs k (fun bb hc => by
      rw [hf] at hc
      simp at hc)
  · intro j bbj prj hj
    rw [pairPlacement_stackLoop p outs j bbj prj hj]
    rfl
  · have hmk : (stackLoop p (outs.take k)).last_ymax =
        (bb1.translateY (tyFor p (k - 1)
          (stackLoop p (outs.take (k - 1))).last_ymax bb1)).ymax := by
      have hk1 : k - 1 + 1 = k := by omega
      have hsucc := stackLoop_take_succ p outs (k - 1) hi1
      rw [hk1] at hsucc
      rw [hsucc, hv1, stackStep_ok_mark]
      have hcond : ¬(maskActive p.extrab_mask (k - 1) = true ∧ false = true) := by
        rintro ⟨-, hq⟩
        exact Bool.false_ne_true hq
      rw [if_neg hcond, add_zero]
      simp [BBox.translateY, add_comm]
    have hmk1 : (stackLoop p (outs.take (k + 1))).last_ymax =
        (stackLoop p (outs.take k)).last_ymax + p.space * (3 / 2) := by
      rw [stackLoop_take_succ p outs k hik, hvk, stackStep_fail_mark]
    have hy2 : (bb2.translateY (tyFor p (k + 1)
        (stackLoop p (outs.take (k + 1))).last_ymax bb2)).ymin =
        (stackLoop p (outs.take (k + 1))).last_ymax + p.space := by
      simp [BBox.translateY, tyFor]
    rw [hy2, hmk1, hmk]
    ring

/-- Witness for C3 at a concrete run: pairs at indices 0 and 2 are valid,
index 1 raises; no geometry for index 1, and the two placed neighbours are
separated by 1.5 + 1 spacings (15 with `space = 6`). -/
theorem claim_C3_witness :
    pairPlacement (stackLoop ⟨20, 3 / 10, 2, 2, 8 / 10, 1, 2, []⟩
      [PairOutcome.ok ⟨-5, 5, 0, 10, 0, 40⟩ false, PairOutcome.fail,
       PairOutcome.ok ⟨-5, 5, 0, 10, 0, 40⟩ false]).items 1 = none ∧
    pegAt (stackLoop ⟨20, 3 / 10, 2, 2, 8 / 10, 1, 2, []⟩
      [PairOutcome.ok ⟨-5, 5, 0, 10, 0, 40⟩ false, PairOutcome.fail,
       PairOutcome.ok ⟨-5, 5, 0, 10, 0, 40⟩ false]).items 1 = none ∧
    (∀ j bbj prj, [PairOutcome.ok ⟨-5, 5, 0, 10, 0, 40⟩ false, PairOutcome.fail,
       PairOutcome.ok ⟨-5, 5, 0, 10, 0, 40⟩ false][j]? =
        some (PairOutcome.ok bbj prj) →
      (pairPlacement (stackLoop ⟨20, 3 / 10, 2, 2, 8 / 10, 1, 2, []⟩
        [PairOutcome.ok ⟨-5, 5, 0, 10, 0, 40⟩ false, PairOutcome.fail,
         PairOutcome.ok ⟨-5, 5, 0, 10, 0, 40⟩ false]).items j).isSome = true) ∧
    ∃ pb1 pb2,
      pairPlacement (stackLoop ⟨20, 3 / 10, 2, 2, 8 / 10, 1, 2, []⟩
        [PairOutcome.ok ⟨-5, 5, 0, 10, 0, 40⟩ false, PairOutcome.fail,
         PairOutcome.ok ⟨-5, 5, 0, 10, 0, 40⟩ false]).items (1 - 1) = some pb1 ∧
      pairPlacement (stackLoop ⟨20, 3 / 10, 2, 2, 8 / 10, 1, 2, []⟩
        [PairOutcome.ok ⟨-5, 5, 0, 10, 0, 40⟩ false, PairOutcome.fail,
         PairOutcome.ok ⟨-5, 5, 0, 10, 0, 40⟩ false]).items (1 + 1) = some pb2 ∧
      pb2.ymin - pb1.ymax = Params.space ⟨20, 3 / 10, 2, 2, 8 / 10, 1, 2, []⟩ * (3 / 2) +
        Params.space ⟨20, 3 / 10, 2, 2, 8 / 10, 1, 2, []⟩ :=
  claim_C3 ⟨20, 3 / 10, 2, 2, 8 / 10, 1, 2, []⟩
    [PairOutcome.ok ⟨-5, 5, 0, 10, 0, 40⟩ false, PairOutcome.fail,
     PairOutcome.ok ⟨-5, 5, 0, 10, 0, 40⟩ false] 1 ⟨-5, 5, 0, 10, 0, 40⟩
    ⟨-5, 5, 0, 10, 0, 40⟩ false (by decide) rfl rfl rfl

/-- Claim C10: if the exception at index `i` is raised only after the pair
solid was added and the mark updated — the peg-construction path — then
the pair geometry stays in the assembly, no peg is added, and the mark is
additionally advanced by 1.5x the spacing past the placed solid's `ymax`:
the failing iteration is not atomic. -/
theorem claim_C10 (p : Params) (outs : List PairOutcome) (i : Nat) (bb : BBox)
    (h : outs[i]? = some (PairOutcome.ok bb true))
    (hm : maskActive p.extrab_mask i = true) :
    ∃ pb, pairPlacement (stackLoop p outs).items i = some pb ∧
      pegAt (stackLoop p outs).items i = none ∧
      (stackLoop p (outs.take (i + 1))).last_ymax =
        pb.ymax + p.space * (3 / 2) := by
  obtain ⟨hi, hv⟩ := List.getElem?_eq_some_iff.1 h
  refine ⟨_, pairPlacement_stackLoop p outs i bb true h, ?_, ?_⟩
  · exact pegAt_stackLoop_none p outs i (fun bb' hc => by
      rw [h] at hc
      simp at hc)
  · rw [stackLoop_take_succ p outs i hi, hv, stackStep_ok_mark,
      if_pos ⟨hm, rfl⟩]
    simp [BBox.translateY, add_comm]

/-- Witness for C10 at a concrete run: mask `"X"` requests a peg at index
0, the peg construction raises; the pair stays placed (ymax 10) and the
mark ends at 10 + 9 = 19 with `space = 6`. -/
theorem claim_C10_witness :
    ∃ pb, pairPlacement (stackLoop ⟨20, 3 / 10, 2, 2, 8 / 10, 1, 2, ['X']⟩
        [PairOutcome.ok ⟨-5, 5, 0, 10, 0, 40⟩ true]).items 0 = some pb ∧
      pegAt (stackLoop ⟨20, 3 / 10, 2, 2, 8 / 10, 1, 2, ['X']⟩
        [PairOutcome.ok ⟨-5, 5, 0, 10, 0, 40⟩ true]).items 0 = none ∧
      (stackLoop ⟨20, 3 / 10, 2, 2, 8 / 10, 1, 2, ['X']⟩
        ([PairOutcome.ok ⟨-5, 5, 0, 10, 0, 40⟩ true].take (0 + 1))).last_ymax =
        pb.ymax + Params.space ⟨20, 3 / 10, 2, 2, 8 / 10, 1, 2, ['X']⟩ * (3 / 2) :=
  claim_C10 ⟨20, 3 / 10, 2, 2, 8 / 10, 1, 2, ['X']⟩
    [PairOutcome.ok ⟨-5, 5, 0, 10, 0, 40⟩ true] 0 ⟨-5, 5, 0, 10, 0, 40⟩
    rfl (by decide)

theorem maskActive_iff (mask : List Char) (i : Nat) :
    maskActive mask i = true ↔ i < mask.length ∧ mask.getD i '_' ≠ '_' := by
  rw [maskActive]
  simp only [Bool.and_eq_true, Bool.not_eq_true', decide_eq_true_eq,
    bne_iff_ne, ne_eq]
  constructor
  · rintro ⟨⟨-, h2⟩, h3⟩
    exact ⟨h2, h3⟩
  · rintro ⟨h2, h3⟩
    refine ⟨⟨?_, h2⟩, h3⟩
    rw [List.isEmpty_eq_false_iff_exists_mem]
    exact ⟨mask[i], List.getElem_mem h2⟩

theorem pegRadius_two : pegRadius 2 = 1 := by
  rw [pegRadius]
  norm_num
  have hfl : (1:ℚ).floor = ⌊(1:ℚ)⌋ := rfl
  rw [hfl, Int.floor_one]

/-- Counterexample to claim C5 as stated: the mask's activation is NOT
"designated active symbol only".  The code tests `extrab_mask[ind] != '_'`,
so ANY symbol other than the inactive `'_'` requests a peg: with mask
`"Y"` (where `'Y'` is not the designated active symbol `'X'`) a peg is
still added under index 0. -/
theorem claim_C5_counterexample :
    Params.extrab_mask ⟨20, 3 / 10, 2, 2, 8 / 10, 1, 2, ['Y']⟩ = ['Y'] ∧
    ('Y' : Char) ≠ 'X' ∧
    pegAt (stackLoop ⟨20, 3 / 10, 2, 2, 8 / 10, 1, 2, ['Y']⟩
        [PairOutcome.ok ⟨-5, 5, 0, 10, 0, 40⟩ false]).items 0 =
      some (Item.peg 0 0 1 1) := by
  refine ⟨rfl, by decide, ?_⟩
  rw [pegAt_stackLoop_some _ _ 0 ⟨-5, 5, 0, 10, 0, 40⟩ rfl (by decide)]
  simp only [Option.some.injEq, Item.peg.injEq]
  refine ⟨trivial, ?_, pegRadius_two, trivial⟩
  norm_num [tyFor]

/-- Claim C5 (amended): a support peg is added under position `i` iff the
pair at `i` was successfully built (and its peg construction does not
raise), the mask extends past `i`, and the mask symbol at `i` differs from
the designated inactive symbol `'_'` — any other symbol activates the peg,
not only `'X'`. -/
theorem claim_C5_amended (p : Params) (outs : List PairOutcome) (i : Nat) :
    (pegAt (stackLoop p outs).items i).isSome = true ↔
      ((∃ bb, outs[i]? = some (PairOutcome.ok bb false)) ∧
        i < p.extrab_mask.length ∧ p.extrab_mask.getD i '_' ≠ '_') := by
  constructor
  · intro hs
    by_cases hok : ∃ bb, outs[i]? = some (PairOutcome.ok bb false)
    · refine ⟨hok, ?_⟩
      rw [← maskActive_iff]
      by_cases hm : maskActive p.extrab_mask i = true
      · exact hm
      · obtain ⟨bb, hbb⟩ := hok
        rw [pegAt_stackLoop_none p outs i
          (fun bb' hc => by
            rw [Bool.not_eq_true] at hm
            exact hm)] at hs
        cases hs
    · rw [pegAt_stackLoop_none p outs i
        (fun bb' hc => absurd ⟨bb', hc⟩ hok)] at hs
      cases hs
  · rintro ⟨⟨bb, hbb⟩, hlen, hsym⟩
    rw [pegAt_stackLoop_some p outs i bb hbb (maskActive_iff _ _ |>.2 ⟨hlen, hsym⟩)]
    rfl

/-- Counterexample to claim C6 as stated: the peg cylinder's radius is NOT
the given peg radius `extrab_rad`.  The code passes `extrab_rad//2`
(floor division) to `circle`: with `extrab_rad = 2` (the UI default) the
constructed peg has radius 1, not 2. -/
theorem claim_C6_counterexample :
    Params.extrab_rad ⟨20, 3 / 10, 2, 2, 8 / 10, 1, 2, ['X']⟩ = 2 ∧
    pegAt (stackLoop ⟨20, 3 / 10, 2, 2, 8 / 10, 1, 2, ['X']⟩
        [PairOutcome.ok ⟨-5, 5, 0, 10, 0, 40⟩ false]).items 0 =
      some (Item.peg 0 0 1 1) ∧
    (1 : ℚ) ≠ 2 := by
  refine ⟨rfl, ?_, by norm_num⟩
  rw [pegAt_stackLoop_some _ _ 0 ⟨-5, 5, 0, 10, 0, 40⟩ rfl (by decide)]
  simp only [Option.some.injEq, Item.peg.injEq]
  refine ⟨trivial, ?_, pegRadius_two, trivial⟩
  norm_num [tyFor]

/-- Claim C6 (amended): for each active mask position whose pair was built
and placed (and whose peg construction does not raise), the added peg is a
cylinder of radius `floor(extrab_rad / 2)` — the code's `extrab_rad//2`,
not `extrab_rad` itself — and of height `extrab_h`, translated by the same
translation vector that was applied to the character pair at that index. -/
theorem claim_C6_amended (p : Params) (outs : List PairOutcome) (i : Nat)
    (bb : BBox) (h : outs[i]? = some (PairOutcome.ok bb false))
    (hm : maskActive p.extrab_mask i = true) :
    ∃ ty, pegAt (stackLoop p outs).items i =
        some (Item.peg i ty (pegRadius p.extrab_rad) p.extrab_h) ∧
      pairPlacement (stackLoop p outs).items i = some (bb.translateY ty) :=
  ⟨_, pegAt_stackLoop_some p outs i bb h hm,
    pairPlacement_stackLoop p outs i bb false h⟩

/-- Witness for the amended C6 at a concrete run: mask `"X"`, one valid
pair; the peg and the pair share the same translation. -/
theorem claim_C6_amended_witness :
    ∃ ty, pegAt (stackLoop ⟨20, 3 / 10, 2, 2, 8 / 10, 1, 2, ['X']⟩
        [PairOutcome.ok ⟨-5, 5, 0, 10, 0, 40⟩ false]).items 0 =
        some (Item.peg 0 ty (pegRadius 2) 1) ∧
      pairPlacement (stackLoop ⟨20, 3 / 10, 2, 2, 8 / 10, 1, 2, ['X']⟩
        [PairOutcome.ok ⟨-5, 5, 0, 10, 0, 40⟩ false]).items 0 =
        some (BBox.translateY ⟨-5, 5, 0, 10, 0, 40⟩ ty) :=
  claim_C6_amended ⟨20, 3 / 10, 2, 2, 8 / 10, 1, 2, ['X']⟩
    [PairOutcome.ok ⟨-5, 5, 0, 10, 0, 40⟩ false] 0 ⟨-5, 5, 0, 10, 0, 40⟩
    rfl (by decide)

theorem stackGo_items_of_all_fail (p : Params) (outs : List PairOutcome)
    (h : ∀ o ∈ outs, o = PairOutcome.fail) :
    ∀ (ind : Nat) (st : StackState), (stackGo p ind st outs).items = st.items := by
  induction outs with
  | nil => intro ind st; rfl
  | cons o rest ih =>
    intro ind st
    have ho : o = PairOutcome.fail := h o (by simp)
    subst ho
    rw [stackGo, ih (fun o ho => h o (by simp [ho]))]
    rfl

/-- Counterexample to claim C4 as stated: with zero valid character pairs
the pipeline does NOT complete with a bare base plate — the base-plate
stage queries the bounding box of the empty assembly, which the kernel
cannot answer, and the resulting exception is uncaught in `dual_text`. -/
theorem claim_C4_counterexample :
    dual_text ⟨20, 3 / 10, 2, 2, 8 / 10, 1, 2, []⟩ [PairOutcome.fail]
      "file" "stl" = Except.error "BoundingBox of empty assembly" := rfl

/-- Claim C4 (amended): when every character pair fails, the per-pair loop
itself completes without raising and adds no geometry, but `dual_text`
then fails at the base-plate stage: the bounding-box query on the empty
assembly raises, the exception propagates (nothing catches it), and no
output — bare base plate or otherwise — is produced. -/
theorem claim_C4_amended (p : Params) (outs : List PairOutcome)
    (en sv : String) (h : ∀ o ∈ outs, o = PairOutcome.fail) :
    (stackLoop p outs).items = [] ∧
    dual_text p outs en sv = Except.error "BoundingBox of empty assembly" := by
  have hitems : (stackLoop p outs).items = [] :=
    stackGo_items_of_all_fail p outs h 0 { items := [], last_ymax := 0 }
  refine ⟨hitems, ?_⟩
  simp only [dual_text]
  rw [hitems]
  rfl

/-- Witness for the amended C4: both pairs fail; the loop leaves the
assembly empty and `dual_text` ends in the kernel's bounding-box error. -/
theorem claim_C4_amended_witness :
    (stackLoop ⟨20, 3 / 10, 2, 2, 8 / 10, 1, 2, []⟩
      [PairOutcome.fail, PairOutcome.fail]).items = [] ∧
    dual_text ⟨20, 3 / 10, 2, 2, 8 / 10, 1, 2, []⟩
      [PairOutcome.fail, PairOutcome.fail] "file" "stl" =
      Except.error "BoundingBox of empty assembly" :=
  claim_C4_amended ⟨20, 3 / 10, 2, 2, 8 / 10, 1, 2, []⟩
    [PairOutcome.fail, PairOutcome.fail] "file" "stl"
    (by
      intro o ho
      simp only [List.mem_cons, List.not_mem_nil, or_false] at ho
      rcases ho with rfl | rfl <;> rfl)

theorem sample_bbox_eq :
    assemblyBBox (stackLoop ⟨20, 3 / 10, 2, 2, 8 / 10, 1, 2, []⟩
      [PairOutcome.ok ⟨-5, 5, 0, 10, 0, 40⟩ false]).items =
      some ⟨-5, 5, 0, 10, 0, 40⟩ := by
  rw [stackLoop]
  norm_num [stackGo, stackStep, maskActive, assemblyBBox, Item.bbox,
    BBox.translateY, tyFor]

theorem sample_run_eq :
    dual_text ⟨20, 3 / 10, 2, 2, 8 / 10, 1, 2, []⟩
      [PairOutcome.ok ⟨-5, 5, 0, 10, 0, 40⟩ false] "file" "stl" =
      Except.ok
        { items := (stackLoop ⟨20, 3 / 10, 2, 2, 8 / 10, 1, 2, []⟩
            [PairOutcome.ok ⟨-5, 5, 0, 10, 0, 40⟩ false]).items,
          plate := plateBox ⟨-5, 5, 0, 10, 0, 40⟩ 2 2,
          filletR := filletRadius ⟨-5, 5, 0, 10, 0, 40⟩ (8 / 10),
          finalShift := (0, -(BBox.ylen ⟨-5, 5, 0, 10, 0, 40⟩) / 2, 0),
          exports := ["file_display.stl", "file" ++ "." ++ "stl"] } := by
  have hfok : filletOk (plateBox ⟨-5, 5, 0, 10, 0, 40⟩ 2 2)
      (filletRadius ⟨-5, 5, 0, 10, 0, 40⟩ (8 / 10)) = true := by
    simp only [filletOk, plateBox, filletRadius, BBox.xlen, BBox.ylen,
      Bool.and_eq_true, decide_eq_true_eq]
    norm_num
  simp only [dual_text]
  rw [sample_bbox_eq]
  dsimp only
  rw [if_pos hfok]

/-- Counterexample to claim C7 as stated: the final translation is NOT a
recentering along the non-stacking horizontal axis.  On a successful run
whose assembly bounding box is ⟨-5,5,0,10,0,40⟩, the compound is
translated by `[0, -5, 0]`: its x-component is 0 even though half the
x-extent is 5 ≠ 0, and its y-component (the stacking axis) is -5 ≠ 0. -/
theorem claim_C7_counterexample :
    ∃ o, dual_text ⟨20, 3 / 10, 2, 2, 8 / 10, 1, 2, []⟩
        [PairOutcome.ok ⟨-5, 5, 0, 10, 0, 40⟩ false] "file" "stl" =
        Except.ok o ∧
      assemblyBBox (stackLoop ⟨20, 3 / 10, 2, 2, 8 / 10, 1, 2, []⟩
        [PairOutcome.ok ⟨-5, 5, 0, 10, 0, 40⟩ false]).items =
        some ⟨-5, 5, 0, 10, 0, 40⟩ ∧
      o.finalShift.1 = 0 ∧
      BBox.xlen ⟨-5, 5, 0, 10, 0, 40⟩ / 2 ≠ 0 ∧
      o.finalShift.2.1 ≠ 0 := by
  refine ⟨_, sample_run_eq, sample_bbox_eq, rfl, ?_, ?_⟩
  · norm_num [BBox.xlen]
  · show -(BBox.ylen ⟨-5, 5, 0, 10, 0, 40⟩) / 2 ≠ 0
    norm_num [BBox.ylen]

/-- Claim C7 (amended): after the base plate is added, `dual_text`
translates the final compound by `[0, -ylen/2, 0]`, where `ylen` is the
pre-plate assembly's extent along the STACKING (y) axis: it recenters
along the stacking axis and leaves the non-stacking horizontal (x)
position unchanged — the two axes are the opposite of what the claim
states. -/
theorem claim_C7_amended (p : Params) (outs : List PairOutcome)
    (en sv : String) (o : Output) (h : dual_text p outs en sv = Except.ok o) :
    ∃ bb, assemblyBBox (stackLoop p outs).items = some bb ∧
      o.finalShift = (0, -bb.ylen / 2, 0) := by
  simp only [dual_text] at h
  cases hbb : assemblyBBox (stackLoop p outs).items with
  | none =>
    rw [hbb] at h
    simp at h
  | some bb =>
    rw [hbb] at h
    dsimp only at h
    by_cases hok : filletOk (plateBox bb p.b_pad p.b_h)
        (filletRadius bb p.b_fil_per) = true
    · rw [if_pos hok] at h
      injection h with h2
      subst h2
      exact ⟨bb, rfl, rfl⟩
    · rw [if_neg hok] at h
      simp at h

/-- Witness for the amended C7 at the concrete successful run: the final
shift is `[0, -5, 0]` for an assembly of y-extent 10. -/
theorem claim_C7_amended_witness :
    ∃ bb, assemblyBBox (stackLoop ⟨20, 3 / 10, 2, 2, 8 / 10, 1, 2, []⟩
        [PairOutcome.ok ⟨-5, 5, 0, 10, 0, 40⟩ false]).items = some bb ∧
      Output.finalShift
        { items := (stackLoop ⟨20, 3 / 10, 2, 2, 8 / 10, 1, 2, []⟩
            [PairOutcome.ok ⟨-5, 5, 0, 10, 0, 40⟩ false]).items,
          plate := plateBox ⟨-5, 5, 0, 10, 0, 40⟩ 2 2,
          filletR := filletRadius ⟨-5, 5, 0, 10, 0, 40⟩ (8 / 10),
          finalShift := (0, -(BBox.ylen ⟨-5, 5, 0, 10, 0, 40⟩) / 2, 0),
          exports := ["file_display.stl", "file" ++ "." ++ "stl"] } =
        (0, -bb.ylen / 2, 0) :=
  claim_C7_amended ⟨20, 3 / 10, 2, 2, 8 / 10, 1, 2, []⟩
    [PairOutcome.ok ⟨-5, 5, 0, 10, 0, 40⟩ false] "file" "stl" _ sample_run_eq

theorem narrow_bbox_eq :
    assemblyBBox (stackLoop ⟨20, 3 / 10, 2, 0, 1, 1, 2, []⟩
      [PairOutcome.ok ⟨-5, 5, 0, 1, 0, 40⟩ false]).items =
      some ⟨-5, 5, 0, 1, 0, 40⟩ := by
  rw [stackLoop]
  norm_num [stackGo, stackStep, maskActive, assemblyBBox, Item.bbox,
    BBox.translateY, tyFor]

/-- Counterexample to claim C8 as stated: nothing clamps the fillet
radius.  With padding 0, fillet fraction 1 and a wide-but-shallow
assembly (x-extent 10, y-extent 1) the requested radius is 5, far above
half the plate's shorter horizontal dimension (1/2), and the
degenerate-fillet kernel failure branch IS reached. -/
theorem claim_C8_counterexample :
    assemblyBBox (stackLoop ⟨20, 3 / 10, 2, 0, 1, 1, 2, []⟩
      [PairOutcome.ok ⟨-5, 5, 0, 1, 0, 40⟩ false]).items =
      some ⟨-5, 5, 0, 1, 0, 40⟩ ∧
    filletRadius ⟨-5, 5, 0, 1, 0, 40⟩ 1 >
      min (plateBox ⟨-5, 5, 0, 1, 0, 40⟩ 0 2).xlen
        (plateBox ⟨-5, 5, 0, 1, 0, 40⟩ 0 2).ylen / 2 ∧
    dual_text ⟨20, 3 / 10, 2, 0, 1, 1, 2, []⟩
      [PairOutcome.ok ⟨-5, 5, 0, 1, 0, 40⟩ false] "file" "stl" =
      Except.error "degenerate fillet" := by
  have hnot : ¬ filletOk (plateBox ⟨-5, 5, 0, 1, 0, 40⟩ 0 2)
      (filletRadius ⟨-5, 5, 0, 1, 0, 40⟩ 1) = true := by
    simp only [filletOk, plateBox, filletRadius, BBox.xlen, BBox.ylen,
      Bool.and_eq_true, decide_eq_true_eq, not_and]
    intro hpos
    norm_num [min_def]
  refine ⟨narrow_bbox_eq, ?_, ?_⟩
  · simp only [filletRadius, plateBox, BBox.xlen, BBox.ylen]
    norm_num [min_def]
  · simp only [dual_text]
    rw [narrow_bbox_eq]
    dsimp only
    rw [if_neg hnot]

/-- Claim C8 (amended): the fillet radius `dual_text` requests equals
(assembly x-extent / 2) x fillet fraction, and (for fraction in [0,1] and
non-negative padding) it never exceeds half of the plate's X dimension;
but it is NOT bounded by half the plate's *shorter* horizontal dimension:
no clamp exists and the degenerate-fillet kernel failure branch is
reachable (see the counterexample). -/
theorem claim_C8_amended (p : Params) (outs : List PairOutcome)
    (en sv : String) (o : Output) (h : dual_text p outs en sv = Except.ok o)
    (hper0 : 0 ≤ p.b_fil_per) (hper1 : p.b_fil_per ≤ 1) (hpad : 0 ≤ p.b_pad)
    (hx : ∀ bb, assemblyBBox (stackLoop p outs).items = some bb →
      0 ≤ bb.xlen) :
    ∃ bb, assemblyBBox (stackLoop p outs).items = some bb ∧
      o.filletR = filletRadius bb p.b_fil_per ∧
      o.filletR ≤ (plateBox bb p.b_pad p.b_h).xlen / 2 := by
  simp only [dual_text] at h
  cases hbb : assemblyBBox (stackLoop p outs).items with
  | none =>
    rw [hbb] at h
    simp at h
  | some bb =>
    rw [hbb] at h
    dsimp only at h
    by_cases hok : filletOk (plateBox bb p.b_pad p.b_h)
        (filletRadius bb p.b_fil_per) = true
    · rw [if_pos hok] at h
      injection h with h2
      subst h2
      refine ⟨bb, rfl, rfl, ?_⟩
      have hxl := hx bb hbb
      simp only [BBox.xlen] at hxl
      simp only [filletRadius, plateBox, BBox.xlen]
      nlinarith [mul_nonneg hxl (sub_nonneg.2 hper1)]
    · rw [if_neg hok] at h
      simp at h

/-- Witness for the amended C8 at the concrete successful run: radius 4,
plate x-dimension 14. -/
theorem claim_C8_amended_witness :
    ∃ bb, assemblyBBox (stackLoop ⟨20, 3 / 10, 2, 2, 8 / 10, 1, 2, []⟩
        [PairOutcome.ok ⟨-5, 5, 0, 10, 0, 40⟩ false]).items = some bb ∧
      Output.filletR
        { items := (stackLoop ⟨20, 3 / 10, 2, 2, 8 / 10, 1, 2, []⟩
            [PairOutcome.ok ⟨-5, 5, 0, 10, 0, 40⟩ false]).items,
          plate := plateBox ⟨-5, 5, 0, 10, 0, 40⟩ 2 2,
          filletR := filletRadius ⟨-5, 5, 0, 10, 0, 40⟩ (8 / 10),
          finalShift := (0, -(BBox.ylen ⟨-5, 5, 0, 10, 0, 40⟩) / 2, 0),
          exports := ["file_display.stl", "file" ++ "." ++ "stl"] } =
        filletRadius bb (8 / 10) ∧
      Output.filletR
        { items := (stackLoop ⟨20, 3 / 10, 2, 2, 8 / 10, 1, 2, []⟩
            [PairOutcome.ok ⟨-5, 5, 0, 10, 0, 40⟩ false]).items,
          plate := plateBox ⟨-5, 5, 0, 10, 0, 40⟩ 2 2,
          filletR := filletRadius ⟨-5, 5, 0, 10, 0, 40⟩ (8 / 10),
          finalShift := (0, -(BBox.ylen ⟨-5, 5, 0, 10, 0, 40⟩) / 2, 0),
          exports := ["file_display.stl", "file" ++ "." ++ "stl"] } ≤
        (plateBox bb 2 2).xlen / 2 :=
  claim_C8_amended ⟨20, 3 / 10, 2, 2, 8 / 10, 1, 2, []⟩
    [PairOutcome.ok ⟨-5, 5, 0, 10, 0, 40⟩ false] "file" "stl" _ sample_run_eq
    (by norm_num) (by norm_num) (by norm_num)
    (fun bb hbb => by
      rw [sample_bbox_eq] at hbb
      injection hbb with hbb2
      subst hbb2
      norm_num [BBox.xlen])

theorem zip_take_min {α β : Type} :
    ∀ (t1 : List α) (t2 : List β),
      t1.zip t2 = (t1.take (min t1.length t2.length)).zip
        (t2.take (min t1.length t2.length))
  | [], t2 => by simp
  | a :: t1, [] => by simp
  | a :: t1, b :: t2 => by
    simp only [List.zip_cons_cons, List.length_cons, Nat.succ_min_succ,
      List.take_succ_cons]
    rw [← zip_take_min t1 t2]

/-- Claim C9: when the two texts differ in length, `dual_text` processes
exactly `min |A| |B|` character pairs (the loop runs over `zip(A, B)`),
and its entire result — geometry and exported output — is identical to
running the pipeline with both texts pre-truncated to the common prefix
length. -/
theorem claim_C9 (inter : Char → Char → PairOutcome) (p : Params)
    (t1 t2 : List Char) (en sv : String) :
    ((t1.zip t2).map fun ab => inter ab.1 ab.2).length =
      min t1.length t2.length ∧
    dualTextRun inter p t1 t2 en sv =
      dualTextRun inter p (t1.take (min t1.length t2.length))
        (t2.take (min t1.length t2.length)) en sv := by
  constructor
  · rw [List.length_map, List.length_zip]
  · rw [dualTextRun, dualTextRun, ← zip_take_min]
